import Mathlib

/-!
Verification of the Meal-Master recipe parser (`recipe_converter/mealmaster.py`)
and the ingredients flattening step of `recipe_converter/convert.py`.

The Python code is embedded shallowly:

* a text stream is a list of lines, each line carrying its trailing newline
  character (the final line of a file may lack it), exactly as Python file /
  `io.StringIO` iteration produces them;
* every regular expression of `class Patterns` is embedded as a Lean function
  on the line's character list, reproducing `re.match` semantics (anchored at
  the start of the line, greedy with backtracking) for such single-line
  strings; `\s` is modelled by `isPySpace` (the six ASCII whitespace
  characters Python's `\s` accepts on ASCII input);
* the stateful readers (`_parse_header`, `_parse_ingredients_groups`,
  `_parse_recipe`, `parse`) become structurally recursive functions threading
  their state explicitly; the `try/except` wrappers of `_parse_recipe` are
  mirrored with `Except`, the two reader calls being parameters of
  `assembleWith` so that the wrapper's behaviour on a failing reader is
  expressible.

All definitions are computable and kernel-reducible, so concrete runs are
settled by `decide`.
-/

namespace MealMaster

/-- Python whitespace for `str.strip`, `str.split()` and the regex class
`\s` restricted to ASCII: space, tab, newline, carriage return, vertical
tab, form feed. -/
def isPySpace (c : Char) : Bool :=
  c == ' ' || c == '\t' || c == '\n' || c == '\r' || c == '\x0b' || c == '\x0c'

/-- Characters of `str.strip()`: drop Python whitespace from both ends. -/
def stripChars (l : List Char) : List Char :=
  ((l.dropWhile isPySpace).reverse.dropWhile isPySpace).reverse

/-- Python `str.strip()`. -/
def pyStrip (s : String) : String := String.mk (stripChars s.data)

/-- Python `not line.strip()`: the line consists only of whitespace. -/
def isBlankLine (s : String) : Bool := pyStrip s == ""

/-- Helper of `collapseWS`; the flag records whether we are inside a
whitespace run whose single replacement `' '` has already been emitted. -/
def collapseWSAux : Bool → List Char → List Char
  | _, [] => []
  | inWS, c :: cs =>
    if isPySpace c then
      if inWS then collapseWSAux true cs else ' ' :: collapseWSAux true cs
    else c :: collapseWSAux false cs

/-- Embedding of `Patterns.MULTI_SPACE.sub(" ", ·)`: replace each maximal run of
whitespace by a single space. -/
def collapseWS (l : List Char) : List Char := collapseWSAux false l

/-- Embedding of `Patterns.MULTI_SPACE.sub(" ", line.strip())` as used in
`_parse_ingredients_groups`. -/
def normalizeLine (s : String) : String := String.mk (collapseWS (stripChars s.data))

/-- Python `stripped_line.startswith("-")`. -/
def startsWithDash (s : String) : Bool :=
  match s.data with
  | c :: _ => c == '-'
  | [] => false

/-- Python `s[2:]`. -/
def pyDrop2 (s : String) : String := String.mk (s.data.drop 2)

/-- Python `str.title()`: each maximal run of letters starts with an upper
case letter, its remaining letters are lowered; other characters are kept.
The flag holds whether the previous character was a letter. -/
def pyTitleAux : Bool → List Char → List Char
  | _, [] => []
  | prev, c :: cs =>
    (if c.isAlpha then (if prev then c.toLower else c.toUpper) else c)
      :: pyTitleAux c.isAlpha cs

/-- Python `str.title()`. -/
def pyTitle (s : String) : String := String.mk (pyTitleAux false s.data)

/-- Python `cat.replace(",", "")`. -/
def removeCommas (s : String) : String := String.mk (s.data.filter (fun c => c ≠ ','))

/-- Helper of `pySplitWS`; `acc` is the current word, reversed. -/
def pySplitWSAux : List Char → List Char → List String
  | acc, [] => if acc.isEmpty then [] else [String.mk acc.reverse]
  | acc, c :: cs =>
    if isPySpace c then
      if acc.isEmpty then pySplitWSAux [] cs
      else String.mk acc.reverse :: pySplitWSAux [] cs
    else pySplitWSAux (c :: acc) cs

/-- Python `str.split()` with no argument: split on whitespace runs,
discarding empty words. -/
def pySplitWS (s : String) : List String := pySplitWSAux [] s.data

/-- Helper of `pySplitComma`; `acc` is the current piece, reversed. -/
def pySplitCommaAux : List Char → List Char → List String
  | acc, [] => [String.mk acc.reverse]
  | acc, c :: cs =>
    if c == ',' then String.mk acc.reverse :: pySplitCommaAux [] cs
    else pySplitCommaAux (c :: acc) cs

/-- Python `str.split(",")`: split at every comma, keeping empty pieces
(`"".split(",") == [""]`). -/
def pySplitComma (s : String) : List String := pySplitCommaAux [] s.data

/-- Python `"\n".join(l)` (`str.join`). -/
def pyJoinNL : List String → String
  | [] => ""
  | a :: rest => rest.foldl (fun acc x => acc ++ "\n" ++ x) a

/-! ### Line classifiers (`class Patterns`)

Each regex of `class Patterns` is always used through `.match(line)` on one
line, so it is embedded as a function of the line. -/

/-- Case-sensitive literal prefix: drop `pat` from the front of `l`. -/
def dropPrefixCS : List Char → List Char → Option (List Char)
  | [], l => some l
  | _ :: _, [] => none
  | p :: ps, c :: cs => if c == p then dropPrefixCS ps cs else none

/-- Case-insensitive literal prefix (`re.IGNORECASE` on ASCII letters). -/
def dropPrefixCI : List Char → List Char → Option (List Char)
  | [], l => some l
  | _ :: _, [] => none
  | p :: ps, c :: cs => if c.toLower == p.toLower then dropPrefixCI ps cs else none

/-- The tail `\s*(.+)` of the header field regexes, applied after the label:
skip whitespace greedily, then capture one or more non-newline characters,
backtracking into the whitespace when nothing else is left on the line.
`r` is the rest of the line after the label's colon. -/
def captureStar (r : List Char) : Option String :=
  let p := r.takeWhile (fun c => c ≠ '\n')
  let t := p.dropWhile isPySpace
  if t.isEmpty then
    if p.isEmpty then none else some (String.mk [p.getLastD ' '])
  else some (String.mk t)

/-- The tail `\s+(.+)` of `SOURCE_COMMENT_LINE`: like `captureStar` but at
least one whitespace character must remain consumed by `\s+`. -/
def capturePlus (r : List Char) : Option String :=
  let p := r.takeWhile (fun c => c ≠ '\n')
  match p with
  | [] => none
  | c :: _ =>
    if isPySpace c then
      let t := p.dropWhile isPySpace
      if t.isEmpty then
        if 2 ≤ p.length then some (String.mk [p.getLastD ' ']) else none
      else some (String.mk t)
    else none

/-- The tail `\s(.+)` of `CATEGORIES_COMMENT_LINE` and `NUTRITIONAL_LINE`:
exactly one whitespace character, then capture one or more non-newline
characters. -/
def captureOne (r : List Char) : Option String :=
  match r with
  | [] => none
  | c :: rest =>
    if isPySpace c then
      let t := rest.takeWhile (fun c => c ≠ '\n')
      if t.isEmpty then none else some (String.mk t)
    else none

/-- The segment `\s+:` of the metadata comment regexes: one or more
whitespace characters followed by a colon (greedy matching is equivalent
here since whitespace never equals `':'`). -/
def wsThenColon (r : List Char) : Option (List Char) :=
  match r with
  | [] => none
  | c :: rest =>
    if isPySpace c then
      match rest.dropWhile isPySpace with
      | ':' :: r2 => some r2
      | _ => none
    else none

/-- Embedding of `Patterns.START_RECIPE = re.compile(r"MMMMM(-)+.*\n")`, used via
`.match`: the line starts with `MMMMM-` and a newline occurs later (any
further dashes are absorbed by `.*`). -/
def isStartRecipe (line : String) : Bool :=
  match line.data with
  | c1 :: c2 :: c3 :: c4 :: c5 :: c6 :: rest =>
    c1 == 'M' && c2 == 'M' && c3 == 'M' && c4 == 'M' && c5 == 'M' && c6 == '-'
      && rest.contains '\n'
  | _ => false

/-- Embedding of `Patterns.END_RECIPE = re.compile(r"MMMMM\n")`, used via `.match`: the
line starts with `MMMMM` followed by a newline (for a file line this means
the line is exactly `"MMMMM\n"`). -/
def isEndRecipe (line : String) : Bool :=
  match line.data with
  | c1 :: c2 :: c3 :: c4 :: c5 :: c6 :: _ =>
    c1 == 'M' && c2 == 'M' && c3 == 'M' && c4 == 'M' && c5 == 'M' && c6 == '\n'
  | _ => false

/-- Scan for the first newline of the list and report whether it is
immediately preceded by a dash: this decides whether `.*-+\n` can match the
remainder of a `SUBHEADING` candidate. -/
def dashThenNL : List Char → Bool
  | [] => false
  | a :: rest =>
    match rest with
    | [] => false
    | b :: _ =>
      if a == '\n' then false
      else if b == '\n' then a == '-'
      else dashThenNL rest

/-- Embedding of `Patterns.SUBHEADING = re.compile(r"MMMMM(-)+.*-+\n")`, used via
`.match`. When the pattern matches, `group(1)` is the last repetition of
the one-character group `(-)`, hence always the string `"-"`. -/
def subheadingCapture (line : String) : Option String :=
  match line.data with
  | c1 :: c2 :: c3 :: c4 :: c5 :: c6 :: rest =>
    if c1 == 'M' && c2 == 'M' && c3 == 'M' && c4 == 'M' && c5 == 'M' && c6 == '-'
        && dashThenNL rest then
      some "-"
    else none
  | _ => none

/-- Embedding of `Patterns.TITLE_LINE.match(line)`: `^\s*Title:\s*(.+)` (case
sensitive), returning `group(1)`. -/
def matchTitle (line : String) : Option String :=
  (dropPrefixCS "Title:".data (line.data.dropWhile isPySpace)).bind captureStar

/-- Embedding of `Patterns.CATEGORIES_LINE.match(line)`: `^\s*Categories:\s*(.+)`. -/
def matchCategoriesHdr (line : String) : Option String :=
  (dropPrefixCS "Categories:".data (line.data.dropWhile isPySpace)).bind captureStar

/-- Embedding of `Patterns.SERVINGS_LINE.match(line)`: `^\s*Servings:\s*(.+)`. -/
def matchServings (line : String) : Option String :=
  (dropPrefixCS "Servings:".data (line.data.dropWhile isPySpace)).bind captureStar

/-- Embedding of `Patterns.PREP_TIME_LINE.match(line)`:
`^\s*Prep(?:aration)? Time:\s*(.+)` with `re.IGNORECASE`. The optional
group is resolved by trying the long form first; the two label forms
cannot both be prefixes of one line, so this equals the regex. -/
def matchPrepTime (line : String) : Option String :=
  let l := line.data.dropWhile isPySpace
  match dropPrefixCI "preparation time:".data l with
  | some r => captureStar r
  | none => (dropPrefixCI "prep time:".data l).bind captureStar

/-- Embedding of `Patterns.COOK_TIME_LINE.match(line)`:
`^\s*Cook(?:ing)? Time:\s*(.+)` with `re.IGNORECASE`. -/
def matchCookTime (line : String) : Option String :=
  let l := line.data.dropWhile isPySpace
  match dropPrefixCI "cooking time:".data l with
  | some r => captureStar r
  | none => (dropPrefixCI "cook time:".data l).bind captureStar

/-- Embedding of `Patterns.TOTAL_TIME_LINE.match(line)`: `^\s*Total Time:\s*(.+)` with
`re.IGNORECASE`. -/
def matchTotalTime (line : String) : Option String :=
  (dropPrefixCI "total time:".data (line.data.dropWhile isPySpace)).bind captureStar

/-- Embedding of `Patterns.DESCRIPTION.match(line)`: `^\s*Description?:\s*(.+)` with
`re.IGNORECASE` — the optional letter is the final `n`, so the label reads
`Description:` or `Descriptio:`. -/
def matchDescription (line : String) : Option String :=
  let l := line.data.dropWhile isPySpace
  match dropPrefixCI "description:".data l with
  | some r => captureStar r
  | none => (dropPrefixCI "descriptio:".data l).bind captureStar

/-- Embedding of `Patterns.NOTES_LINE.match(line)`: `^\s*Notes?:\s*(.+)` with
`re.IGNORECASE`. -/
def matchNotes (line : String) : Option String :=
  let l := line.data.dropWhile isPySpace
  match dropPrefixCI "notes:".data l with
  | some r => captureStar r
  | none => (dropPrefixCI "note:".data l).bind captureStar

/-- Embedding of `Patterns.SOURCE_COMMENT_LINE.match(line)`:
`^::Quelle\s+:\s+:\s+(.+)` with `re.IGNORECASE`. -/
def matchQuelle (line : String) : Option String :=
  (dropPrefixCI "::quelle".data line.data).bind fun r1 =>
    (wsThenColon r1).bind fun r2 =>
      (wsThenColon r2).bind capturePlus

/-- Embedding of `Patterns.CATEGORIES_COMMENT_LINE.match(line)`:
`^::Stichworte\s+:\s+:\s(.+)` with `re.IGNORECASE`. -/
def matchStichworte (line : String) : Option String :=
  (dropPrefixCI "::stichworte".data line.data).bind fun r1 =>
    (wsThenColon r1).bind fun r2 =>
      (wsThenColon r2).bind captureOne

/-- Embedding of `Patterns.NUTRITIONAL_LINE.match(line)`: `^::Energie\s+:\s+:\s(.+)`
with `re.IGNORECASE`. -/
def matchEnergie (line : String) : Option String :=
  (dropPrefixCI "::energie".data line.data).bind fun r1 =>
    (wsThenColon r1).bind fun r2 =>
      (wsThenColon r2).bind captureOne

/-- Embedding of `Patterns.COMMENT_LINE.match(line)`: `^::(.+)` — the line starts with
the sigil and at least one non-newline character follows it. -/
def matchCommentLine (line : String) : Bool :=
  match line.data with
  | ':' :: ':' :: c :: _ => c != '\n'
  | _ => false

/-! ### Data model -/

/-- Embedding of `@dataclasses.dataclass class IngredientsGroup`. -/
structure IngredientsGroup where
  title : String
  ingredients : List String := []
deriving DecidableEq

/-- Embedding of `@dataclasses.dataclass class Recipe`. -/
structure Recipe where
  title : String := ""
  description : String := ""
  servings : String := ""
  cook_time : String := ""
  prep_time : String := ""
  total_time : String := ""
  categories : List String := []
  ingredients_groups : List IngredientsGroup := []
  instructions : String := ""
  nutrition : String := ""
  source : String := ""
  notes : String := ""
deriving DecidableEq

/-! ### Header Reader (`_parse_header`) -/

/-- The loop of `_parse_header`: lines are consumed one by one; a blank
line ends the header once `started` is set, and each recognised field line
sets its field and `started`. Returns the updated recipe and the lines not
consumed. -/
def parseHeaderLoop : Recipe → Bool → List String → Recipe × List String
  | r, _, [] => (r, [])
  | r, started, line :: rest =>
    if isBlankLine line then
      if started then (r, rest) else parseHeaderLoop r started rest
    else
      match matchTitle line with
      | some v => parseHeaderLoop { r with title := pyTitle v } true rest
      | none =>
      match matchCategoriesHdr line with
      | some v =>
        parseHeaderLoop { r with categories := (pySplitComma v).map pyStrip } true rest
      | none =>
      match matchServings line with
      | some v => parseHeaderLoop { r with servings := v } true rest
      | none =>
      match matchPrepTime line with
      | some v => parseHeaderLoop { r with prep_time := v } true rest
      | none =>
      match matchCookTime line with
      | some v => parseHeaderLoop { r with cook_time := v } true rest
      | none =>
      match matchTotalTime line with
      | some v => parseHeaderLoop { r with total_time := v } true rest
      | none =>
      match matchDescription line with
      | some v => parseHeaderLoop { r with description := v } true rest
      | none =>
      match matchNotes line with
      | some v =>
        parseHeaderLoop
          { r with notes := (if r.notes == "" then "" else r.notes ++ "\n") ++ v }
          true rest
      | none => parseHeaderLoop r started rest

/-- Embedding of `_parse_header(recipe, f)`; returns the mutated recipe and the
remaining lines of the stream. -/
def parse_header (r : Recipe) (lines : List String) : Recipe × List String :=
  parseHeaderLoop r false lines

/-! ### Ingredients Reader (`_parse_ingredients_groups`, `_parse_ingredients`) -/

/-- Embedding of `ingredients_group.ingredients[-1] += " "; ... += stripped_line[2:]`
versus appending a fresh ingredient when the group is still empty. -/
def contIngredients (ings : List String) (rem : String) : List String :=
  match ings with
  | [] => [rem]
  | _ => ings.dropLast ++ [ings.getLastD "" ++ " " ++ rem]

/-- The loop of `_parse_ingredients_groups` over the buffered ingredient
lines: `cur` is the current group (`None` initially), `acc` the groups
already closed. -/
def parseIGLoop : Option IngredientsGroup → List IngredientsGroup → List String →
    List IngredientsGroup
  | cur, acc, [] =>
    match cur with
    | some g => acc ++ [g]
    | none => acc
  | cur, acc, line :: rest =>
    if isBlankLine line then
      match cur with
      | some g => acc ++ [g]
      | none => acc
    else
      match subheadingCapture line with
      | some t =>
        match cur with
        | some g => parseIGLoop (some ⟨t, []⟩) (acc ++ [g]) rest
        | none => parseIGLoop (some ⟨t, []⟩) acc rest
      | none =>
        let g := match cur with
          | some g => g
          | none => (⟨"", []⟩ : IngredientsGroup)
        let s := normalizeLine line
        if startsWithDash s then
          parseIGLoop (some ⟨g.title, contIngredients g.ingredients (pyDrop2 s)⟩) acc rest
        else
          parseIGLoop (some ⟨g.title, g.ingredients ++ [s]⟩) acc rest

/-- Embedding of `_parse_ingredients_groups(buffer)` on the buffer's lines. -/
def parse_ingredients_groups (lines : List String) : List IngredientsGroup :=
  parseIGLoop none [] lines

/-- Embedding of `_parse_ingredients(buffer)`: buffer the lines up to the first blank
line (consuming it), feed them to `_parse_ingredients_groups`, and return
the remaining lines of the stream. -/
def parse_ingredients (lines : List String) : List IngredientsGroup × List String :=
  let buf := lines.takeWhile (fun l => !isBlankLine l)
  (parse_ingredients_groups buf, (lines.drop buf.length).drop 1)

/-! ### Body Reader (the loop of `_parse_recipe` after the ingredients) -/

/-- The category-comment update of `_parse_recipe`: for each token, append
it unless already present. -/
def addCategories (cats : List String) (toks : List String) : List String :=
  toks.foldl (fun cs c => if cs.contains c then cs else cs ++ [c]) cats

/-- Python `instructions.replace("\n\n", "\n")`: left-to-right,
non-overlapping replacement of doubled newlines. -/
def replaceNLNL : List Char → List Char
  | [] => []
  | [a] => [a]
  | a :: b :: rest =>
    if a == '\n' && b == '\n' then '\n' :: replaceNLNL rest
    else a :: replaceNLNL (b :: rest)

/-- One iteration of the body loop of `_parse_recipe` on one line:
nutrition comment (always overwrites), category comment (dedup append),
source comment (first occurrence wins, a later one falls through to the
generic comment check), generic comment (discarded), otherwise the line
is appended to the instructions accumulator. -/
def bodyStep (r : Recipe) (ins : String) (line : String) : Recipe × String :=
  match matchEnergie line with
  | some v => ({ r with nutrition := v }, ins)
  | none =>
  match matchStichworte line with
  | some v =>
    ({ r with categories := addCategories r.categories ((pySplitWS v).map removeCommas) },
     ins)
  | none =>
  match matchQuelle line with
  | some v =>
    if r.source == "" then ({ r with source := v }, ins)
    else if matchCommentLine line then (r, ins)
    else (r, ins ++ line)
  | none =>
    if matchCommentLine line then (r, ins)
    else (r, ins ++ line)

/-- The body loop of `_parse_recipe`: `ins` is the instructions
accumulator (`io.StringIO`). -/
def parseBodyLoop : Recipe → String → List String → Recipe × String
  | r, ins, [] => (r, ins)
  | r, ins, line :: rest =>
    parseBodyLoop (bodyStep r ins line).1 (bodyStep r ins line).2 rest

/-- The body phase of `_parse_recipe`: run the loop, then store
`instructions.read().strip().replace("\n\n", "\n")`. -/
def parse_body (r : Recipe) (lines : List String) : Recipe :=
  let p := parseBodyLoop r "" lines
  { p.1 with instructions := String.mk (replaceNLNL (stripChars p.2.data)) }

/-! ### Record Assembler (`_parse_recipe`) -/

/-- Embedding of `_parse_recipe(buffer)` as a total function: header, ingredients, body
in sequence over one record's buffered lines. -/
def parse_recipe (lines : List String) : Recipe :=
  let p1 := parse_header {} lines
  let p2 := parse_ingredients p1.2
  parse_body { p1.1 with ingredients_groups := p2.1 } p2.2

/-- The `try/except` structure of `_parse_recipe` with the two reader
calls abstracted: a header failure is wrapped citing the record's first
line (`buffer.seek(0); buffer.readline()`), an ingredients failure citing
the partially-known title. -/
def assembleWith
    (hdr : Recipe → List String → Except String (Recipe × List String))
    (ing : List String → Except String (List IngredientsGroup × List String))
    (lines : List String) : Except String Recipe :=
  match hdr {} lines with
  | .error _ => .error ("Error parsing header of recipe " ++ lines.headD "")
  | .ok p =>
    match ing p.2 with
    | .error _ => .error ("Error parsing ingredients of recipe " ++ p.1.title)
    | .ok q => .ok (parse_body { p.1 with ingredients_groups := q.1 } q.2)

/-- The actual header reader never fails (its Python body performs only
total string operations). -/
def headerE (r : Recipe) (lines : List String) : Except String (Recipe × List String) :=
  .ok (parseHeaderLoop r false lines)

/-- The actual ingredients reader never fails. -/
def ingredientsE (lines : List String) :
    Except String (List IngredientsGroup × List String) :=
  .ok (parse_ingredients lines)

/-- Embedding of `_parse_recipe` with its exception wrapper. -/
def parse_recipeE (lines : List String) : Except String Recipe :=
  assembleWith headerE ingredientsE lines

/-! ### Record Splitter (`parse`) -/

/-- The loop of `parse` with the record assembler abstracted: `started` is
`recipe_started`, `buf` the current record buffer. Returns the recipes
yielded before any failure, and the failure if one aborted the
sequence. -/
def parseLoopW (asm : List String → Except String Recipe) :
    Bool → List String → List String → List Recipe × Option String
  | _, _, [] => ([], none)
  | started, buf, line :: rest =>
    if isStartRecipe line then parseLoopW asm true buf rest
    else if started && isEndRecipe line then
      match asm buf with
      | .error e => ([], some e)
      | .ok r =>
        let p := parseLoopW asm false [] rest
        (r :: p.1, p.2)
    else if started then parseLoopW asm started (buf ++ [line]) rest
    else parseLoopW asm started buf rest

/-- Embedding of `parse(f)` with failure tracking: the recipes yielded in order, plus
the error that aborted the generator, if any. -/
def parseE (lines : List String) : List Recipe × Option String :=
  parseLoopW parse_recipeE false [] lines

/-- Embedding of `list(parse(f))`: the sequence of recipes yielded. -/
def parse (lines : List String) : List Recipe :=
  (parseE lines).1

/-! ### Ingredients flattening (`convert.mealmaster_to_melarecipe`) -/

/-- The ingredients-flattening loop of `mealmaster_to_melarecipe`: a
`# title` line for each titled group, then the group's ingredients joined
by newlines, plus a trailing newline. -/
def serializeGroupsConvert (gs : List IngredientsGroup) : String :=
  gs.foldl
    (fun acc g =>
      (if g.title == "" then acc else acc ++ "# " ++ g.title ++ "\n")
        ++ pyJoinNL g.ingredients ++ "\n")
    ""

/-- Helper of `splitLines`; `acc` is the current line, reversed. -/
def splitLinesAux : List Char → List Char → List String
  | acc, [] => if acc.isEmpty then [] else [String.mk acc.reverse]
  | acc, c :: cs =>
    if c == '\n' then String.mk ('\n' :: acc).reverse :: splitLinesAux [] cs
    else splitLinesAux (c :: acc) cs

/-- Iterating an `io.StringIO` over its lines: split after each newline,
keeping the newline; a final fragment without newline is a line too. -/
def splitLines (s : String) : List String := splitLinesAux [] s.data

/-- Round trip of a group list through the converter's flattening and the
Ingredients Reader. -/
def roundTripConvert (gs : List IngredientsGroup) : List IngredientsGroup :=
  parse_ingredients_groups (splitLines (serializeGroupsConvert gs))

/-! ### Helper lemmas -/

/-- A record-end line never matches the record-start pattern (the sixth
character is `'\n'` there, `'-'` here). -/
theorem isEnd_not_isStart (l : String) (h : isEndRecipe l = true) :
    isStartRecipe l = false := by
  obtain ⟨d⟩ := l
  rcases d with _ | ⟨a, _ | ⟨b, _ | ⟨c, _ | ⟨e, _ | ⟨f, _ | ⟨g, rest⟩⟩⟩⟩⟩⟩ <;>
    simp_all [isEndRecipe, isStartRecipe]

/-- The concrete readers never fail, so `_parse_recipe` returns its pure
value. -/
theorem parse_recipeE_ok (lines : List String) :
    parse_recipeE lines = .ok (parse_recipe lines) := rfl

/-- While outside a record, lines that do not match the start pattern are
discarded. -/
theorem parseLoopW_skip (asm : List String → Except String Recipe) (pre : List String)
    (h : ∀ l ∈ pre, isStartRecipe l = false) (buf rest : List String) :
    parseLoopW asm false buf (pre ++ rest) = parseLoopW asm false buf rest := by
  induction pre with
  | nil => rfl
  | cons a t ih =>
    have ha := h a (by simp)
    simp only [List.cons_append, parseLoopW, ha, Bool.false_eq_true, if_false,
      Bool.false_and]
    exact ih (fun l hl => h l (by simp [hl]))

/-- While inside a record, lines matching neither delimiter are appended
to the record buffer. -/
theorem parseLoopW_buffer (asm : List String → Except String Recipe) (int : List String)
    (h : ∀ l ∈ int, isStartRecipe l = false ∧ isEndRecipe l = false)
    (buf rest : List String) :
    parseLoopW asm true buf (int ++ rest) = parseLoopW asm true (buf ++ int) rest := by
  induction int generalizing buf with
  | nil => simp
  | cons a t ih =>
    obtain ⟨ha1, ha2⟩ := h a (by simp)
    have step : parseLoopW asm true buf ((a :: t) ++ rest)
        = parseLoopW asm true (buf ++ [a]) (t ++ rest) := by
      simp [parseLoopW, ha1, ha2]
    rw [step, ih (fun l hl => h l (List.mem_cons_of_mem _ hl)) (buf ++ [a])]
    simp

/-- If no line of the remaining input matches the end pattern, the loop
yields nothing and raises nothing, whatever its state. -/
theorem parseLoopW_noEnd (asm : List String → Except String Recipe) (lines : List String)
    (h : ∀ l ∈ lines, isEndRecipe l = false) :
    ∀ started buf, parseLoopW asm started buf lines = ([], none) := by
  induction lines with
  | nil => intro s b; rfl
  | cons a t ih =>
    intro s b
    have ha := h a (by simp)
    have iht : ∀ l ∈ t, isEndRecipe l = false :=
      fun l hl => h l (List.mem_cons_of_mem _ hl)
    cases hs : isStartRecipe a <;> cases s <;>
      simp [parseLoopW, hs, ha] <;> exact ih iht _ _

/-- One complete record at the head of the stream: the start line opens
the buffer, the interior is buffered, the end line assembles and yields. -/
theorem parseLoopW_record (asm : List String → Except String Recipe)
    (s : String) (int : List String) (e : String) (rest : List String) (r : Recipe)
    (hs : isStartRecipe s = true) (he : isEndRecipe e = true)
    (hint : ∀ l ∈ int, isStartRecipe l = false ∧ isEndRecipe l = false)
    (hasm : asm int = .ok r) :
    parseLoopW asm false [] (s :: (int ++ e :: rest)) =
      (r :: (parseLoopW asm false [] rest).1, (parseLoopW asm false [] rest).2) := by
  simp only [parseLoopW, hs, if_true]
  rw [parseLoopW_buffer asm int hint [] (e :: rest)]
  simp [parseLoopW, isEnd_not_isStart e he, he, hasm]

/-- A well-formed record source: a start-delimiter line, the interior
lines, and an end-delimiter line. -/
structure RawRecord where
  start : String
  interior : List String
  stop : String

/-- The line span of a `RawRecord` in the input stream. -/
def rawRecordLines (rc : RawRecord) : List String :=
  rc.start :: (rc.interior ++ [rc.stop])

/-! ### Claim theorems -/

/-- C1: the claim fails on the code. In the full pipeline, subheading
lines also match `Patterns.START_RECIPE`, so the record splitter consumes
them (`recipe_started = True; continue`) and they are never buffered: a
record whose ingredients section holds two subheadings and their lines
parses to a single untitled group holding all the ingredient lines.
Fed directly to `_parse_ingredients_groups` — as the spec intends — the
very same section does yield two groups, each with exactly its own lines
and with `group(1)` of the subheading regex (always `"-"`) as title. -/
theorem parse_drops_subheading_lines :
    (parse
      ["MMMMM----- Recipe via Meal-Master\n", "Title: T\n", "\n",
       "MMMMM------SAUCE------\n", "1 cup a\n", "MMMMM-----TOP-----\n", "2 cup b\n",
       "\n", "MMMMM\n"]).map Recipe.ingredients_groups
      = [[⟨"", ["1 cup a", "2 cup b"]⟩]]
    ∧ parse_ingredients_groups
        ["MMMMM------SAUCE------\n", "1 cup a\n", "MMMMM-----TOP-----\n", "2 cup b\n"]
      = [⟨"-", ["1 cup a"]⟩, ⟨"-", ["2 cup b"]⟩] := by decide

/-- C2: an input made of a preamble without start-delimiter lines, `N`
well-formed records, and a postamble without start-delimiter lines parses
to exactly the `N` recipes assembled from the records' interiors, in
document order, with no error; all lines outside the records are
discarded. -/
theorem parse_yields_each_wellformed_record
    (pre post : List String) (recs : List RawRecord)
    (hpre : ∀ l ∈ pre, isStartRecipe l = false)
    (hpost : ∀ l ∈ post, isStartRecipe l = false)
    (hrecs : ∀ rc ∈ recs, isStartRecipe rc.start = true ∧ isEndRecipe rc.stop = true ∧
      ∀ l ∈ rc.interior, isStartRecipe l = false ∧ isEndRecipe l = false) :
    parseE (pre ++ (recs.map rawRecordLines).flatten ++ post)
      = (recs.map (fun rc => parse_recipe rc.interior), none) := by
  unfold parseE
  rw [List.append_assoc, parseLoopW_skip _ pre hpre]
  induction recs with
  | nil =>
    have := parseLoopW_skip parse_recipeE post hpost [] []
    simpa using this
  | cons rc t ih =>
    obtain ⟨h1, h2, h3⟩ := hrecs rc (by simp)
    have hshape :
        ((rc :: t).map rawRecordLines).flatten ++ post
          = rc.start :: (rc.interior ++ rc.stop :: ((t.map rawRecordLines).flatten ++ post)) := by
      simp [rawRecordLines]
    rw [hshape,
      parseLoopW_record _ rc.start rc.interior rc.stop _ (parse_recipe rc.interior)
        h1 h2 h3 (parse_recipeE_ok _),
      ih (fun x hx => hrecs x (by simp [hx]))]
    simp

/-- C2 witness: two concrete records with junk before and after yield the
two assembled recipes in order and no error. -/
theorem parse_yields_each_wellformed_record_witness :
    parseE (["junk\n"]
        ++ (([⟨"MMMMM----- Meal-Master\n", ["Title: alpha\n"], "MMMMM\n"⟩,
             ⟨"MMMMM----- Meal-Master\n", ["Title: beta\n"], "MMMMM\n"⟩] :
              List RawRecord).map rawRecordLines).flatten
        ++ ["trailing\n"])
      = ((([⟨"MMMMM----- Meal-Master\n", ["Title: alpha\n"], "MMMMM\n"⟩,
           ⟨"MMMMM----- Meal-Master\n", ["Title: beta\n"], "MMMMM\n"⟩] :
            List RawRecord).map
          (fun rc => parse_recipe rc.interior)), none)
    ∧ (parse ["junk\n",
        "MMMMM----- Meal-Master\n", "Title: alpha\n", "MMMMM\n",
        "MMMMM----- Meal-Master\n", "Title: beta\n", "MMMMM\n",
        "trailing\n"]).map Recipe.title = ["Alpha", "Beta"] :=
  ⟨parse_yields_each_wellformed_record _ _ _ (by decide) (by decide) (by decide),
   by decide⟩

/-- C8: a whitespace-only line ends the header exactly when a field line
has already been recognised (`started`): with `started` it returns at
once consuming the blank line, without it the blank line is skipped; in
particular any run of blank lines before the first field line is
skipped. -/
theorem header_blank_line_semantics (r : Recipe) (rest : List String) (b : String)
    (hb : isBlankLine b = true) :
    parseHeaderLoop r true (b :: rest) = (r, rest)
    ∧ parseHeaderLoop r false (b :: rest) = parseHeaderLoop r false rest
    ∧ ∀ (blanks : List String) (r2 : Recipe), (∀ l ∈ blanks, isBlankLine l = true) →
        parse_header r2 (blanks ++ rest) = parse_header r2 rest := by
  refine ⟨by simp [parseHeaderLoop, hb], by simp [parseHeaderLoop, hb], ?_⟩
  intro blanks r2 h
  unfold parse_header
  induction blanks with
  | nil => rfl
  | cons a t ih =>
    have ha := h a (by simp)
    simp only [List.cons_append, parseHeaderLoop, ha, if_true, Bool.false_eq_true,
      if_false]
    exact ih (fun l hl => h l (by simp [hl]))

/-- C8 witness: a blank line ends a started header but is skipped before
any field line. -/
theorem header_blank_line_semantics_witness :
    parseHeaderLoop {} true ["  \n", "Title: x\n"] = ({}, ["Title: x\n"])
    ∧ parseHeaderLoop {} false ["  \n", "Title: x\n"]
        = parseHeaderLoop {} false ["Title: x\n"] :=
  ⟨(header_blank_line_semantics {} ["Title: x\n"] "  \n" (by decide)).1,
   (header_blank_line_semantics {} ["Title: x\n"] "  \n" (by decide)).2.1⟩

/-- C9: if a record-start line is seen but no later line matches the
record-end pattern `MMMMM\n` — in particular when the last line is
`"MMMMM"` without its newline — the buffered record is silently
discarded: no recipe is yielded for it and no error is raised. -/
theorem unterminated_record_discarded (pre : List String) (first : String)
    (tail : List String)
    (hpre : ∀ l ∈ pre, isStartRecipe l = false)
    (hfirst : isStartRecipe first = true)
    (htail : ∀ l ∈ tail, isEndRecipe l = false) :
    parseE (pre ++ first :: tail) = ([], none) := by
  unfold parseE
  rw [parseLoopW_skip _ pre hpre]
  simp only [parseLoopW, hfirst, if_true]
  exact parseLoopW_noEnd _ tail htail true []

/-- C9 witness: a record whose final delimiter lacks the trailing newline
is discarded without error. -/
theorem unterminated_record_discarded_witness :
    parseE ["preamble\n", "MMMMM----- Meal-Master\n", "Title: x\n", "MMMMM"]
      = ([], none) :=
  unterminated_record_discarded ["preamble\n"] "MMMMM----- Meal-Master\n"
    ["Title: x\n", "MMMMM"] (by decide) (by decide) (by decide)

/-- C10: the readers perform only total string operations, so the
`except` branches of `_parse_recipe` are unreachable: assembling any
buffered record succeeds with the pure result, and `parse` never raises
an error on any input stream. -/
theorem parse_total_no_errors :
    (∀ lines, parse_recipeE lines = .ok (parse_recipe lines))
    ∧ ∀ lines, (parseE lines).2 = none := by
  refine ⟨fun _ => rfl, ?_⟩
  intro lines
  unfold parseE
  suffices h : ∀ started buf, (parseLoopW parse_recipeE started buf lines).2 = none by
    exact h false []
  induction lines with
  | nil => intro s b; rfl
  | cons a t ih =>
    intro s b
    cases hs : isStartRecipe a <;> cases s <;>
      cases he : isEndRecipe a <;>
        simp [parseLoopW, hs, he, parse_recipeE_ok] <;> apply ih

/-- A non-empty normalized line is a non-blank line: stripping a line
whose normalization is non-empty cannot give the empty string. -/
theorem normalizeLine_ne_empty_not_blank (line : String) (h : normalizeLine line ≠ "") :
    isBlankLine line = false := by
  cases hb : isBlankLine line
  · rfl
  · exfalso
    apply h
    unfold isBlankLine pyStrip at hb
    have hd : stripChars line.data = [] := by
      have h1 : String.mk (stripChars line.data) = "" := by
        exact beq_iff_eq.mp hb
      have h2 := congrArg String.data h1
      simpa using h2
    unfold normalizeLine
    rw [hd]
    rfl

/-- C6: the ingredients `"   1 cup flour\n- sifted\n"` parse to one
untitled group with the single entry `"1 cup flour sifted"`; in general a
line whose normalization is `"- " ++ r` (and which is not a subheading,
which is matched first on the raw line) is folded into the current group
by `contIngredients`: appended to the group's last ingredient with a
single space in between, or opening a new ingredient `r` when the group
has no ingredient yet (also when no group is open yet, in which case an
untitled group is opened first). -/
theorem continuation_line_semantics :
    (parse_ingredients_groups ["   1 cup flour\n", "- sifted\n"]
      = [⟨"", ["1 cup flour sifted"]⟩])
    ∧ (∀ (t : String) (ings : List String) (acc : List IngredientsGroup)
        (rest : List String) (line r : String),
        subheadingCapture line = none →
        normalizeLine line = "- " ++ r →
        parseIGLoop (some ⟨t, ings⟩) acc (line :: rest)
          = parseIGLoop (some ⟨t, contIngredients ings r⟩) acc rest)
    ∧ (∀ (acc : List IngredientsGroup) (rest : List String) (line r : String),
        subheadingCapture line = none →
        normalizeLine line = "- " ++ r →
        parseIGLoop none acc (line :: rest)
          = parseIGLoop (some ⟨"", [r]⟩) acc rest)
    ∧ (∀ r : String, contIngredients [] r = [r])
    ∧ (∀ (xs : List String) (x r : String),
        contIngredients (xs ++ [x]) r = xs ++ [x ++ " " ++ r]) := by
  have hblank : ∀ (line r : String), normalizeLine line = "- " ++ r →
      isBlankLine line = false := by
    intro line r hn
    apply normalizeLine_ne_empty_not_blank
    rw [hn]
    intro hc
    have := congrArg String.data hc
    simp [String.data_append] at this
  have hdash : ∀ r : String, startsWithDash ("- " ++ r) = true := by
    intro r
    have : ("- " ++ r).data = '-' :: ' ' :: r.data := by
      rw [String.data_append]
      rfl
    simp [startsWithDash, this]
  have hdrop : ∀ r : String, pyDrop2 ("- " ++ r) = r := by
    intro r
    have : ("- " ++ r).data = '-' :: ' ' :: r.data := by
      rw [String.data_append]
      rfl
    simp only [pyDrop2, this, List.drop_succ_cons, List.drop_zero]
  refine ⟨by decide, ?_, ?_, fun _ => rfl, ?_⟩
  · intro t ings acc rest line r hsub hn
    simp [parseIGLoop, hblank line r hn, hsub, hn, hdash r, hdrop r]
  · intro acc rest line r hsub hn
    simp [parseIGLoop, hblank line r hn, hsub, hn, hdash r, hdrop r, contIngredients]
  · intro xs x r
    rcases xs with _ | ⟨a, as⟩
    · simp [contIngredients]
    · show contIngredients ((a :: as) ++ [x]) r = _
      simp only [contIngredients, List.cons_append]
      rw [show a :: (as ++ [x]) = (a :: as) ++ [x] from rfl]
      rw [List.dropLast_concat, List.getLastD_concat]
      exact List.cons_append a as _

/-- C6 witness: the continuation step applied to a group that already
holds `"1 cup flour"` and the line `"- sifted\n"`. -/
theorem continuation_line_semantics_witness :
    parseIGLoop (some ⟨"", ["1 cup flour"]⟩) [] ["- sifted\n"]
      = parseIGLoop (some ⟨"", contIngredients ["1 cup flour"] "sifted"⟩) [] [] :=
  continuation_line_semantics.2.1 "" ["1 cup flour"] [] [] "- sifted\n" "sifted"
    (by decide) (by decide)

/-- C7: whichever reader is plugged into the `_parse_recipe` wrapper, a
header failure propagates as an error citing the record's raw first line
and an ingredients failure as an error citing the best-known title; in
the record splitter such a failing record yields no recipe at all and
aborts the sequence at that point (nothing after it is processed). -/
theorem assembler_wraps_reader_failures :
    (∀ (hdr : Recipe → List String → Except String (Recipe × List String))
       (ing : List String → Except String (List IngredientsGroup × List String))
       (lines : List String) (e : String), hdr {} lines = .error e →
        assembleWith hdr ing lines
          = .error ("Error parsing header of recipe " ++ lines.headD ""))
    ∧ (∀ (hdr : Recipe → List String → Except String (Recipe × List String))
        (ing : List String → Except String (List IngredientsGroup × List String))
        (lines : List String) (p : Recipe × List String) (e : String),
        hdr {} lines = .ok p → ing p.2 = .error e →
        assembleWith hdr ing lines
          = .error ("Error parsing ingredients of recipe " ++ p.1.title))
    ∧ (∀ (asm : List String → Except String Recipe) (s : String) (int : List String)
        (e : String) (rest : List String) (err : String),
        isStartRecipe s = true → isEndRecipe e = true →
        (∀ l ∈ int, isStartRecipe l = false ∧ isEndRecipe l = false) →
        asm int = .error err →
        parseLoopW asm false [] (s :: (int ++ e :: rest)) = ([], some err)) := by
  refine ⟨?_, ?_, ?_⟩
  · intro hdr ing lines e h
    simp [assembleWith, h]
  · intro hdr ing lines p e h1 h2
    simp [assembleWith, h1, h2]
  · intro asm s int e rest err hs he hint hasm
    simp only [parseLoopW, hs, if_true]
    rw [parseLoopW_buffer asm int hint [] (e :: rest)]
    simp [parseLoopW, isEnd_not_isStart e he, he, hasm]

/-- C7 witness: a header reader that fails makes the assembler report the
record's first line, and makes the splitter abort with no recipe. -/
theorem assembler_wraps_reader_failures_witness :
    assembleWith (fun _ _ => .error "boom") ingredientsE ["Title: x\n"]
      = .error ("Error parsing header of recipe " ++ (["Title: x\n"].headD ""))
    ∧ parseLoopW (fun _ => .error "boom") false []
        ("MMMMM----- Meal-Master\n" :: (["Title: x\n"] ++ "MMMMM\n" :: []))
      = ([], some "boom") :=
  ⟨assembler_wraps_reader_failures.1 (fun _ _ => .error "boom") ingredientsE
      ["Title: x\n"] "boom" rfl,
   assembler_wraps_reader_failures.2.2 (fun _ => .error "boom")
      "MMMMM----- Meal-Master\n" ["Title: x\n"] "MMMMM\n" [] "boom"
      (by decide) (by decide) (by decide) rfl⟩

/-- C3 counterexample: the header `Categories:` field line replaces the
category list by the comma-split, stripped values without removing
duplicates, so `"Categories: Soup, Easy, Easy"` yields
`["Soup", "Easy", "Easy"]`, not `["Soup", "Easy"]` — also through the
full pipeline. -/
theorem header_categories_keep_duplicates :
    (parse_header {} ["Categories: Soup, Easy, Easy\n"]).1.categories
      = ["Soup", "Easy", "Easy"]
    ∧ (parse_header {} ["Categories: Soup, Easy, Easy\n"]).1.categories
        ≠ ["Soup", "Easy"]
    ∧ (parse ["MMMMM----- Meal-Master\n", "Categories: Soup, Easy, Easy\n", "\n",
        "\n", "MMMMM\n"]).map Recipe.categories
      = [["Soup", "Easy", "Easy"]] := by decide

/-! ### Body phase lemmas (for the merge policies) -/

/-- A `::Quelle` match excludes the two comment matchers checked before
it: their labels differ at the third character. -/
theorem matchQuelle_disjoint (l : String) (v : String) (h : matchQuelle l = some v) :
    matchEnergie l = none ∧ matchStichworte l = none := by
  obtain ⟨d⟩ := l
  unfold matchQuelle at h
  unfold matchEnergie matchStichworte
  rw [show "::quelle".data = [':', ':', 'q', 'u', 'e', 'l', 'l', 'e'] from rfl] at h
  rw [show "::energie".data = [':', ':', 'e', 'n', 'e', 'r', 'g', 'i', 'e'] from rfl,
    show "::stichworte".data
      = [':', ':', 's', 't', 'i', 'c', 'h', 'w', 'o', 'r', 't', 'e'] from rfl]
  have tq : ('q' : Char).toLower = 'q' := rfl
  have te : ('e' : Char).toLower = 'e' := rfl
  have ts : ('s' : Char).toLower = 's' := rfl
  have tc : (':' : Char).toLower = ':' := rfl
  have hqe : (('q' : Char) == 'e') = false := by decide
  have hqs : (('q' : Char) == 's') = false := by decide
  rcases d with _ | ⟨a, _ | ⟨b, _ | ⟨c, rest⟩⟩⟩
  · simp [dropPrefixCI] at h
  · simp [dropPrefixCI] at h
  · simp [dropPrefixCI] at h
  · by_cases h1 : a.toLower = ':'
    · by_cases h2 : b.toLower = ':'
      · by_cases h3 : c.toLower = 'q'
        · constructor <;> simp [dropPrefixCI, tc, tq, te, ts, h1, h2, h3, hqe, hqs]
        · simp [dropPrefixCI, tc, tq, h1, h2, h3] at h
      · simp [dropPrefixCI, tc, h1, h2] at h
    · simp [dropPrefixCI, tc, h1] at h

/-- The `\s+(.+)` capture of `SOURCE_COMMENT_LINE` is never empty. -/
theorem capturePlus_ne (r : List Char) (v : String) (h : capturePlus r = some v) :
    v ≠ "" := by
  intro hv
  subst hv
  simp only [capturePlus] at h
  split at h
  · exact Option.noConfusion h
  next c tail heq =>
    rw [heq] at h
    by_cases h1 : isPySpace c = true
    · rw [if_pos h1] at h
      by_cases h2 : (List.dropWhile isPySpace (c :: tail)).isEmpty = true
      · rw [if_pos h2] at h
        by_cases h3 : 2 ≤ (c :: tail).length
        · rw [if_pos h3] at h
          have hx := congrArg String.data (Option.some.inj h)
          simp at hx
        · rw [if_neg h3] at h
          exact Option.noConfusion h
      · rw [if_neg h2] at h
        have hx := congrArg String.data (Option.some.inj h)
        have hnil : List.dropWhile isPySpace (c :: tail) = [] := by simpa using hx
        exact h2 (by simp [hnil])
    · rw [if_neg h1] at h
      exact Option.noConfusion h

/-- A captured source value is never the empty string. -/
theorem matchQuelle_ne (l : String) (v : String) (h : matchQuelle l = some v) :
    v ≠ "" := by
  unfold matchQuelle at h
  rw [Option.bind_eq_some] at h
  obtain ⟨r1, -, h⟩ := h
  rw [Option.bind_eq_some] at h
  obtain ⟨r2, -, h⟩ := h
  rw [Option.bind_eq_some] at h
  obtain ⟨r3, -, h⟩ := h
  exact capturePlus_ne _ _ h

/-- A non-nutrition line leaves `nutrition` unchanged. -/
theorem bodyStep_nutrition_none (r : Recipe) (ins : String) (l : String)
    (h : matchEnergie l = none) :
    (bodyStep r ins l).1.nutrition = r.nutrition := by
  unfold bodyStep
  rw [h]
  cases hS : matchStichworte l with
  | some v => rfl
  | none =>
    cases hQ : matchQuelle l with
    | some v => split_ifs <;> rfl
    | none => split_ifs <;> rfl

/-- A nutrition line overwrites `nutrition`. -/
theorem bodyStep_nutrition_some (r : Recipe) (ins : String) (l v : String)
    (h : matchEnergie l = some v) :
    (bodyStep r ins l).1.nutrition = v := by
  unfold bodyStep
  rw [h]

/-- A non-source line leaves `source` unchanged. -/
theorem bodyStep_source_none (r : Recipe) (ins : String) (l : String)
    (h : matchQuelle l = none) :
    (bodyStep r ins l).1.source = r.source := by
  unfold bodyStep
  cases hE : matchEnergie l with
  | some v => rfl
  | none =>
    cases hS : matchStichworte l with
    | some v => rfl
    | none =>
      rw [h]
      split_ifs <;> rfl

/-- Once `source` is set, no later line changes it. -/
theorem bodyStep_source_later (r : Recipe) (ins : String) (l : String)
    (h : r.source ≠ "") :
    (bodyStep r ins l).1.source = r.source := by
  unfold bodyStep
  cases hE : matchEnergie l with
  | some v => rfl
  | none =>
    cases hS : matchStichworte l with
    | some v => rfl
    | none =>
      cases hQ : matchQuelle l with
      | some v =>
        have hb : (r.source == "") = false := by simpa using h
        by_cases hc : matchCommentLine l = true <;> simp [hb, hc]
      | none => by_cases hc : matchCommentLine l = true <;> simp [hc]

/-- A source line sets `source` when it is still empty. -/
theorem bodyStep_source_first (r : Recipe) (ins : String) (l v : String)
    (hq : matchQuelle l = some v) (h : r.source = "") :
    (bodyStep r ins l).1.source = v := by
  obtain ⟨hE, hS⟩ := matchQuelle_disjoint l v hq
  unfold bodyStep
  rw [hE, hS, hq]
  have : (r.source == "") = true := by simpa using h
  rw [this]
  rfl

/-- The body loop composes over list append. -/
theorem parseBodyLoop_append (xs : List String) :
    ∀ (ys : List String) (r : Recipe) (ins : String),
      parseBodyLoop r ins (xs ++ ys)
        = parseBodyLoop (parseBodyLoop r ins xs).1 (parseBodyLoop r ins xs).2 ys := by
  induction xs with
  | nil => intro ys r ins; rfl
  | cons a t ih =>
    intro ys r ins
    exact ih ys (bodyStep r ins a).1 (bodyStep r ins a).2

/-- Field `nutrition` is untouched by a run of non-nutrition lines. -/
theorem bodyLoop_nutrition_preserved (ys : List String)
    (h : ∀ y ∈ ys, matchEnergie y = none) :
    ∀ (r : Recipe) (ins : String), (parseBodyLoop r ins ys).1.nutrition = r.nutrition := by
  induction ys with
  | nil => intro r ins; rfl
  | cons a t ih =>
    intro r ins
    show (parseBodyLoop (bodyStep r ins a).1 (bodyStep r ins a).2 t).1.nutrition = _
    rw [ih (fun y hy => h y (List.mem_cons_of_mem _ hy))]
    exact bodyStep_nutrition_none r ins a (h a (by simp))

/-- Field `source` is untouched by a run of non-source lines. -/
theorem bodyLoop_source_preserved (xs : List String)
    (h : ∀ x ∈ xs, matchQuelle x = none) :
    ∀ (r : Recipe) (ins : String), (parseBodyLoop r ins xs).1.source = r.source := by
  induction xs with
  | nil => intro r ins; rfl
  | cons a t ih =>
    intro r ins
    show (parseBodyLoop (bodyStep r ins a).1 (bodyStep r ins a).2 t).1.source = _
    rw [ih (fun x hx => h x (List.mem_cons_of_mem _ hx))]
    exact bodyStep_source_none r ins a (h a (by simp))

/-- A non-empty `source` survives the rest of the body. -/
theorem bodyLoop_source_nonempty (ys : List String) :
    ∀ (r : Recipe) (ins : String), r.source ≠ "" →
      (parseBodyLoop r ins ys).1.source = r.source := by
  induction ys with
  | nil => intro r ins _; rfl
  | cons a t ih =>
    intro r ins h
    show (parseBodyLoop (bodyStep r ins a).1 (bodyStep r ins a).2 t).1.source = _
    have hstep := bodyStep_source_later r ins a h
    rw [ih _ _ (by rw [hstep]; exact h), hstep]

/-- C5: in the body phase, `nutrition` takes the value of the last
nutrition comment (any occurrence overwrites), while `source` takes the
value of the first source comment (later ones are ignored because the
field is then non-empty; captures are never empty). -/
theorem body_nutrition_last_source_first (r : Recipe) :
    (∀ (xs ys : List String) (l v : String), matchEnergie l = some v →
      (∀ y ∈ ys, matchEnergie y = none) →
      (parse_body r (xs ++ l :: ys)).nutrition = v)
    ∧ (∀ (xs ys : List String) (l v : String), r.source = "" → matchQuelle l = some v →
        (∀ x ∈ xs, matchQuelle x = none) →
        (parse_body r (xs ++ l :: ys)).source = v) := by
  constructor
  · intro xs ys l v hl hys
    show (parseBodyLoop r "" (xs ++ l :: ys)).1.nutrition = v
    rw [parseBodyLoop_append]
    set p := parseBodyLoop r "" xs
    show (parseBodyLoop (bodyStep p.1 p.2 l).1 (bodyStep p.1 p.2 l).2 ys).1.nutrition = v
    rw [bodyLoop_nutrition_preserved ys hys]
    exact bodyStep_nutrition_some p.1 p.2 l v hl
  · intro xs ys l v hr hl hxs
    show (parseBodyLoop r "" (xs ++ l :: ys)).1.source = v
    rw [parseBodyLoop_append]
    set p := parseBodyLoop r "" xs with hp
    show (parseBodyLoop (bodyStep p.1 p.2 l).1 (bodyStep p.1 p.2 l).2 ys).1.source = v
    have hmid : p.1.source = "" := by
      rw [hp]
      rw [bodyLoop_source_preserved xs hxs]
      exact hr
    have hset := bodyStep_source_first p.1 p.2 l v hl hmid
    rw [bodyLoop_source_nonempty ys _ _ (by rw [hset]; exact matchQuelle_ne l v hl),
      hset]

/-- C5 witness: two nutrition comments keep the second value, two source
comments keep the first. -/
theorem body_nutrition_last_source_first_witness :
    (parse_body {} (["::Energie : : 1 kcal\n"] ++ "::Energie : : 2 kcal\n" :: [])).nutrition
      = "2 kcal"
    ∧ (parse_body {} ([] ++ "::Quelle : : A\n" :: ["::Quelle : : B\n"])).source = "A"
    ∧ parse_body {}
        ["::Energie : : 1 kcal\n", "::Energie : : 2 kcal\n",
         "::Quelle : : A\n", "::Quelle : : B\n"]
      = { nutrition := "2 kcal", source := "A" } :=
  ⟨(body_nutrition_last_source_first {}).1 ["::Energie : : 1 kcal\n"] []
      "::Energie : : 2 kcal\n" "2 kcal" (by decide) (by decide),
   (body_nutrition_last_source_first {}).2 [] ["::Quelle : : B\n"]
      "::Quelle : : A\n" "A" rfl (by decide) (by decide),
   by decide⟩

/-! ### Category list lemmas -/

/-- Appending only-unseen tokens preserves freedom from duplicates. -/
theorem addCategories_nodup (toks : List String) :
    ∀ cats : List String, cats.Nodup → (addCategories cats toks).Nodup := by
  induction toks with
  | nil => intro cats h; exact h
  | cons a t ih =>
    intro cats h
    show (addCategories (if cats.contains a then cats else cats ++ [a]) t).Nodup
    by_cases hc : cats.contains a = true
    · rw [if_pos hc]
      exact ih cats h
    · rw [if_neg hc]
      apply ih
      have ha : a ∉ cats := by
        intro hm
        exact hc (by simpa using hm)
      simp [List.nodup_append, h, ha]

/-- Appending only-unseen tokens keeps the previous categories as an
unchanged front segment. -/
theorem addCategories_front (toks : List String) :
    ∀ cats : List String, ∃ u, cats ++ u = addCategories cats toks := by
  induction toks with
  | nil => intro cats; exact ⟨[], by simp [addCategories]⟩
  | cons a t ih =>
    intro cats
    show ∃ u, cats ++ u = addCategories (if cats.contains a then cats else cats ++ [a]) t
    by_cases hc : cats.contains a = true
    · rw [if_pos hc]
      exact ih cats
    · rw [if_neg hc]
      obtain ⟨u, hu⟩ := ih (cats ++ [a])
      exact ⟨[a] ++ u, by rw [← List.append_assoc]; exact hu⟩

/-- One body line preserves freedom from duplicates of the category
list. -/
theorem bodyStep_categories_nodup (r : Recipe) (ins : String) (l : String)
    (h : r.categories.Nodup) : (bodyStep r ins l).1.categories.Nodup := by
  unfold bodyStep
  cases hE : matchEnergie l with
  | some v => exact h
  | none =>
    cases hS : matchStichworte l with
    | some v => exact addCategories_nodup _ _ h
    | none =>
      cases hQ : matchQuelle l with
      | some v => split_ifs <;> exact h
      | none => split_ifs <;> exact h

/-- One body line only ever appends to the category list. -/
theorem bodyStep_categories_front (r : Recipe) (ins : String) (l : String) :
    ∃ u, r.categories ++ u = (bodyStep r ins l).1.categories := by
  unfold bodyStep
  cases hE : matchEnergie l with
  | some v => exact ⟨[], by simp⟩
  | none =>
    cases hS : matchStichworte l with
    | some v => exact addCategories_front _ _
    | none =>
      cases hQ : matchQuelle l with
      | some v => split_ifs <;> exact ⟨[], by simp⟩
      | none => split_ifs <;> exact ⟨[], by simp⟩

/-- The body loop preserves freedom from duplicates of the category
list. -/
theorem bodyLoop_categories_nodup (ls : List String) :
    ∀ (r : Recipe) (ins : String), r.categories.Nodup →
      (parseBodyLoop r ins ls).1.categories.Nodup := by
  induction ls with
  | nil => intro r ins h; exact h
  | cons a t ih =>
    intro r ins h
    exact ih _ _ (bodyStep_categories_nodup r ins a h)

/-- The body loop only ever appends to the category list. -/
theorem bodyLoop_categories_front (ls : List String) :
    ∀ (r : Recipe) (ins : String),
      ∃ u, r.categories ++ u = (parseBodyLoop r ins ls).1.categories := by
  induction ls with
  | nil => intro r ins; exact ⟨[], by simp [parseBodyLoop]⟩
  | cons a t ih =>
    intro r ins
    obtain ⟨u1, hu1⟩ := bodyStep_categories_front r ins a
    obtain ⟨u2, hu2⟩ := ih (bodyStep r ins a).1 (bodyStep r ins a).2
    refine ⟨u1 ++ u2, ?_⟩
    show r.categories ++ (u1 ++ u2) = (parseBodyLoop _ _ t).1.categories
    rw [← List.append_assoc, hu1, hu2]

/-- C3 amended: the body category-comment path deduplicates while
preserving insertion order (a duplicate-free list stays duplicate-free
and existing entries stay in place as a front segment), but the header
`Categories:` line performs no deduplication: it replaces the list by the
comma-split, stripped values, so `"Categories: Soup, Easy, Easy"` yields
`["Soup", "Easy", "Easy"]`. -/
theorem categories_dedup_amended (r : Recipe) (ls : List String)
    (h : r.categories.Nodup) :
    (parse_body r ls).categories.Nodup
    ∧ (∃ u, r.categories ++ u = (parse_body r ls).categories)
    ∧ (parse_header {} ["Categories: Soup, Easy, Easy\n"]).1.categories
        = ["Soup", "Easy", "Easy"] := by
  refine ⟨?_, ?_, by decide⟩
  · exact bodyLoop_categories_nodup ls r "" h
  · exact bodyLoop_categories_front ls r ""

/-- C3 amended witness: a category comment with a repeated token adds it
only once, keeping the list duplicate-free. -/
theorem categories_dedup_amended_witness :
    ((parse_body {} ["::Stichworte : : Suppe, Einfach, Suppe\n"]).categories.Nodup
      ∧ (∃ u, ({} : Recipe).categories ++ u
          = (parse_body {} ["::Stichworte : : Suppe, Einfach, Suppe\n"]).categories)
      ∧ (parse_header {} ["Categories: Soup, Easy, Easy\n"]).1.categories
          = ["Soup", "Easy", "Easy"])
    ∧ (parse_body {} ["::Stichworte : : Suppe, Einfach, Suppe\n"]).categories
        = ["Suppe", "Einfach"] :=
  ⟨categories_dedup_amended {} ["::Stichworte : : Suppe, Einfach, Suppe\n"]
      (by decide),
   by decide⟩

/-! ### Round-trip lemmas -/

/-- Helper `splitLinesAux` walks past newline-free characters, accumulating them
reversed. -/
theorem splitLinesAux_no_nl (w : List Char) (hw : '\n' ∉ w) :
    ∀ (acc rest : List Char),
      splitLinesAux acc (w ++ rest) = splitLinesAux (w.reverse ++ acc) rest := by
  induction w with
  | nil => intro acc rest; rfl
  | cons c w' ih =>
    intro acc rest
    have hc : (c == '\n') = false := by
      simp only [List.mem_cons, not_or] at hw
      simpa using fun hcc => hw.1 hcc.symm
    show splitLinesAux acc (c :: (w' ++ rest)) = _
    rw [show splitLinesAux acc (c :: (w' ++ rest))
        = if c == '\n' then String.mk ('\n' :: acc).reverse :: splitLinesAux [] (w' ++ rest)
          else splitLinesAux (c :: acc) (w' ++ rest) from rfl, hc]
    simp only [Bool.false_eq_true, if_false]
    rw [ih (fun hm => hw (List.mem_cons_of_mem _ hm)) (c :: acc) rest]
    simp

/-- Pulling a common left factor out of the newline-join fold. -/
theorem joinNL_pull (t : List String) :
    ∀ (c b : String),
      List.foldl (fun acc x => acc ++ "\n" ++ x) (c ++ b) t
        = c ++ List.foldl (fun acc x => acc ++ "\n" ++ x) b t := by
  induction t with
  | nil => intro c b; rfl
  | cons x xs ih =>
    intro c b
    show List.foldl (fun acc x => acc ++ "\n" ++ x) ((c ++ b) ++ "\n" ++ x) xs
        = c ++ List.foldl (fun acc x => acc ++ "\n" ++ x) (b ++ "\n" ++ x) xs
    rw [String.append_assoc c b "\n", String.append_assoc c (b ++ "\n") x]
    exact ih c (b ++ "\n" ++ x)

/-- The newline join of at least two pieces factors its head. -/
theorem pyJoinNL_cons (a b : String) (t : List String) :
    pyJoinNL (a :: b :: t) = a ++ "\n" ++ pyJoinNL (b :: t) := by
  show List.foldl _ ((a ++ "\n") ++ b) t = (a ++ "\n") ++ List.foldl _ b t
  exact joinNL_pull t (a ++ "\n") b

/-- Splitting the newline join of newline-free non-empty pieces restores
the pieces, each carrying its newline. -/
theorem splitLines_join :
    ∀ ings : List String, ings ≠ [] → (∀ i ∈ ings, '\n' ∉ i.data) →
      splitLines (pyJoinNL ings ++ "\n") = ings.map (· ++ "\n") := by
  intro ings
  induction ings with
  | nil => intro hne _; exact absurd rfl hne
  | cons i rest ih =>
    intro _ h
    have hi : '\n' ∉ i.data := h i (by simp)
    cases rest with
    | nil =>
      have hd1 : (i ++ "\n").data = i.data ++ ['\n'] := by rw [String.data_append]
      show splitLines (i ++ "\n") = [i ++ "\n"]
      unfold splitLines
      rw [hd1, splitLinesAux_no_nl i.data hi [] ['\n']]
      rw [show splitLinesAux (i.data.reverse ++ []) ['\n']
          = String.mk ('\n' :: (i.data.reverse ++ [])).reverse :: splitLinesAux [] []
          from rfl]
      show [String.mk ('\n' :: (i.data.reverse ++ [])).reverse] = _
      congr 1
      have hrev : ('\n' :: (i.data.reverse ++ [])).reverse = i.data ++ ['\n'] := by simp
      rw [hrev, ← hd1]
    | cons j t =>
      rw [pyJoinNL_cons i j t]
      unfold splitLines
      have hdata : ((i ++ "\n" ++ pyJoinNL (j :: t)) ++ "\n").data
          = i.data ++ ('\n' :: ((pyJoinNL (j :: t) ++ "\n")).data) := by
        rw [String.data_append, String.data_append, String.data_append,
          String.data_append]
        simp
      rw [hdata, splitLinesAux_no_nl i.data hi]
      rw [show splitLinesAux (i.data.reverse ++ []) ('\n' :: (pyJoinNL (j :: t) ++ "\n").data)
          = String.mk ('\n' :: (i.data.reverse ++ [])).reverse
              :: splitLinesAux [] (pyJoinNL (j :: t) ++ "\n").data from rfl]
      have hrec := ih (by simp) (fun x hx => h x (List.mem_cons_of_mem _ hx))
      unfold splitLines at hrec
      rw [hrec]
      show String.mk ('\n' :: (i.data.reverse ++ [])).reverse :: _ = (i ++ "\n") :: _
      congr 1
      have hd1 : (i ++ "\n").data = i.data ++ ['\n'] := by rw [String.data_append]
      have hrev : ('\n' :: (i.data.reverse ++ [])).reverse = i.data ++ ['\n'] := by simp
      rw [hrev, ← hd1]

/-- A run of plain ingredient lines (non-blank, no subheading, no leading
dash after normalization) appends their normalizations to the open
group. -/
theorem parseIGLoop_plain (lines : List String)
    (h : ∀ l ∈ lines, isBlankLine l = false ∧ subheadingCapture l = none
      ∧ startsWithDash (normalizeLine l) = false) :
    ∀ (t : String) (ings : List String) (acc : List IngredientsGroup),
      parseIGLoop (some ⟨t, ings⟩) acc lines
        = acc ++ [⟨t, ings ++ lines.map normalizeLine⟩] := by
  induction lines with
  | nil => intro t ings acc; simp [parseIGLoop]
  | cons l ls ih =>
    intro t ings acc
    obtain ⟨h1, h2, h3⟩ := h l (by simp)
    have step : parseIGLoop (some ⟨t, ings⟩) acc (l :: ls)
        = parseIGLoop (some ⟨t, ings ++ [normalizeLine l]⟩) acc ls := by
      simp [parseIGLoop, h1, h2, h3]
    rw [step, ih (fun x hx => h x (List.mem_cons_of_mem _ hx))]
    simp

/-- Parsing plain ingredient lines from scratch yields one untitled group
of their normalizations. -/
theorem parse_ingredients_groups_plain (l : String) (ls : List String)
    (h : ∀ x ∈ l :: ls, isBlankLine x = false ∧ subheadingCapture x = none
      ∧ startsWithDash (normalizeLine x) = false) :
    parse_ingredients_groups (l :: ls) = [⟨"", (l :: ls).map normalizeLine⟩] := by
  obtain ⟨h1, h2, h3⟩ := h l (by simp)
  have step : parse_ingredients_groups (l :: ls)
      = parseIGLoop (some ⟨"", [normalizeLine l]⟩) [] ls := by
    simp [parse_ingredients_groups, parseIGLoop, h1, h2, h3]
  rw [step, parseIGLoop_plain ls (fun x hx => h x (List.mem_cons_of_mem _ hx))]
  simp

/-- C4 counterexample: the group list parsed from a titled ingredients
section does not survive the converter's flattening: the `# -` title line
re-parses as an ingredient line, so titles and ingredient lists both
change. -/
theorem ingredients_roundtrip_fails :
    parse_ingredients_groups ["MMMMM------SAUCE------\n", "1 cup a\n"]
      = [⟨"-", ["1 cup a"]⟩]
    ∧ roundTripConvert [⟨"-", ["1 cup a"]⟩] = [⟨"", ["# -", "1 cup a"]⟩]
    ∧ ([⟨"", ["# -", "1 cup a"]⟩] : List IngredientsGroup) ≠ [⟨"-", ["1 cup a"]⟩]
    ∧ parse_ingredients_groups ["- -x\n"] = [⟨"", ["-x"]⟩]
    ∧ roundTripConvert [⟨"", ["-x"]⟩] = [⟨"", [""]⟩] := by decide

/-- C4 amended: round-tripping holds for the untitled single group, when
every ingredient is non-empty, is fixed by whitespace normalization after
its newline is re-attached, does not begin with a dash, and its line is
neither blank nor a subheading: the converter's flattening followed by
the Ingredients Reader restores exactly the same group sequence. -/
theorem ingredients_roundtrip_amended (ings : List String) (hne : ings ≠ [])
    (h : ∀ i ∈ ings, i ≠ "" ∧ normalizeLine (i ++ "\n") = i
      ∧ startsWithDash i = false ∧ subheadingCapture (i ++ "\n") = none
      ∧ isBlankLine (i ++ "\n") = false ∧ '\n' ∉ i.data) :
    roundTripConvert [⟨"", ings⟩] = [⟨"", ings⟩] := by
  unfold roundTripConvert
  have hser : serializeGroupsConvert [⟨"", ings⟩] = pyJoinNL ings ++ "\n" := rfl
  rw [hser, splitLines_join ings hne (fun i hi => (h i hi).2.2.2.2.2)]
  cases ings with
  | nil => exact absurd rfl hne
  | cons i rest =>
    have hplain : ∀ x ∈ (i :: rest).map (· ++ "\n"),
        isBlankLine x = false ∧ subheadingCapture x = none
          ∧ startsWithDash (normalizeLine x) = false := by
      intro x hx
      rw [List.mem_map] at hx
      obtain ⟨y, hy, rfl⟩ := hx
      obtain ⟨-, hnorm, hdash, hsub, hblank, -⟩ := h y hy
      exact ⟨hblank, hsub, by rw [hnorm]; exact hdash⟩
    show parse_ingredients_groups ((i ++ "\n") :: rest.map (· ++ "\n"))
        = [⟨"", i :: rest⟩]
    rw [parse_ingredients_groups_plain (i ++ "\n") (rest.map (· ++ "\n"))
      (by simpa using hplain)]
    congr 1
    refine congrArg (fun z => IngredientsGroup.mk "" z) ?_
    show ((i :: rest).map (· ++ "\n")).map normalizeLine = i :: rest
    rw [List.map_map]
    have : ∀ l : List String, (∀ y ∈ l, normalizeLine (y ++ "\n") = y) →
        l.map (fun y => normalizeLine (y ++ "\n")) = l := by
      intro l
      induction l with
      | nil => intro _; rfl
      | cons a t ih =>
        intro hl
        simp only [List.map_cons, hl a (by simp),
          ih (fun y hy => hl y (List.mem_cons_of_mem _ hy))]
    exact this (i :: rest) (fun y hy => (h y hy).2.1)

/-- C4 amended witness: two plain ingredients survive the round trip. -/
theorem ingredients_roundtrip_amended_witness :
    roundTripConvert [⟨"", ["1 cup a", "2 cup b"]⟩]
      = [⟨"", ["1 cup a", "2 cup b"]⟩] :=
  ingredients_roundtrip_amended ["1 cup a", "2 cup b"] (by decide) (by decide)

end MealMaster
